import Mathlib

/-!
Formal verification of the signed-request protocol layer of the xy-api
repository: a shallow embedding in Lean 4 of the cookie store, the signing
engine, the retry/reauthentication control flow of `XianyuApis`
(src/XianyuApis.py) and the binary decode pipeline of
`src/utils/xianyu_utils.py`, together with theorems settling the frozen
claims about the natural-language specification.

Conventions of the embedding:
- Python byte strings are `List Nat` (each entry a byte value 0..255).
- Python `str` values are Lean `String` (both are sequences of Unicode
  code points), or `List Char` where inductive reasoning is needed.
- Fallible Python code (code that can raise) is embedded with `Except`;
  a Python `try/except` becomes a `match` on the `Except` value.
- Network responses are supplied by oracles (`Nat → Bool`, or
  `Nat → HttpResponse`) indexed by the attempt number; recursion in the
  retry loops is made total either by a `termination_by` measure that
  mirrors the source's retry bound, or (for `get_token`, whose source
  recursion is not structurally bounded) by an explicit fuel parameter,
  with fuel exhaustion denoting non-termination of the source recursion.
- CPython's recursion limit (`RecursionError`) for the MessagePack
  decoder is modelled by a fuel parameter that is decremented on every
  decoded element; running out of fuel is an exception like any other.
-/

/-! ## Generic list/string helpers used throughout the embedding -/

/-- Containment of `needle` as a contiguous sublist of `hay` (Python's
`needle in hay` operator on strings, applied to the code-point lists). -/
def listContainsSub (needle hay : List Char) : Bool :=
  (List.range (hay.length + 1)).any (fun i => needle.isPrefixOf (hay.drop i))

/-- Number of indices of `hay` at which `needle` occurs as a contiguous
sublist (occurrences may overlap; used to state "appears exactly once"). -/
def countOccurrences (needle hay : List Char) : Nat :=
  ((List.range (hay.length + 1)).filter
    (fun i => needle.isPrefixOf (hay.drop i))).length

/-- Python's `s.split(sep)` for a one-character separator, on code-point
lists: splits at every occurrence of `sep`; `[].split` gives `[[]]`. -/
def pySplitChar (sep : Char) : List Char → List (List Char)
  | [] => [[]]
  | c :: rest =>
    match pySplitChar sep rest with
    | [] => [[]]
    | group :: groups =>
      if c = sep then [] :: group :: groups else (c :: group) :: groups

/-- Lowercase hexadecimal digit for a value below 16 (`0`-`9`, `a`-`f`). -/
def hexChar (n : Nat) : Char :=
  if n < 10 then Char.ofNat (48 + n) else Char.ofNat (87 + n)

/-- Two-digit lowercase hexadecimal rendering of one byte (Python's
`%02x` format and `bytes.hex()` per-byte rendering). -/
def byteHex (b : Nat) : List Char :=
  [hexChar (b / 16 % 16), hexChar (b % 16)]

/-- Lowercase hexadecimal rendering of a byte string (Python `bytes.hex()`). -/
def bytesHex (bs : List Nat) : String :=
  ⟨bs.flatMap byteHex⟩

/-! ## Cookie/Session Store (src/XianyuApis.py)

The requests cookie jar is embedded as an association list of
(name, value) pairs in observation order; a later pair with the same name
is a more recently observed duplicate. -/

/-- Embedding of `XianyuApis.clear_duplicate_cookies` (src/XianyuApis.py
lines 32-54): the source copies `list(self.session.cookies)`, reverses it,
and inserts each cookie into a fresh jar unless its name was already
added. `dedupKeepFirst seen l` is the loop over the reversed list with
`seen` the set of names already added. -/
def dedupKeepFirst (seen : List String) : List (String × String) → List (String × String)
  | [] => []
  | c :: rest =>
    if c.1 ∈ seen then dedupKeepFirst seen rest
    else c :: dedupKeepFirst (c.1 :: seen) rest

/-- Embedding of the cookie-set transformation performed by
`clear_duplicate_cookies`: reverse the observed cookie list and keep the
first occurrence of each name (the `.env` persistence side effect of
`update_env_cookies` is outside the cookie-set transformation). -/
def clear_duplicate_cookies (cookies : List (String × String)) : List (String × String) :=
  dedupKeepFirst [] cookies.reverse

/-- Embedding of `self.session.cookies.get(name, default)`: the value of
the first cookie with the given name, or the default when absent. -/
def cookieGet (cookies : List (String × String)) (name default : String) : String :=
  match cookies.find? (fun p => p.1 == name) with
  | some p => p.2
  | none => default

/-- Embedding of the token projection used by both signed calls
(src/XianyuApis.py lines 172 and 231):
`self.session.cookies.get('_m_h5_tk', '').split('_')[0]`. -/
def tokenOf (cookies : List (String × String)) : String :=
  ⟨((pySplitChar '_' (cookieGet cookies "_m_h5_tk" "").data).headD [])⟩

/-! ## Signing Engine (src/utils/xianyu_utils.py, generate_sign)

`hashlib.md5` is standard-library code that is not part of the
repository; it is embedded below as the MD5 algorithm (RFC 1321) over
byte lists, with 32-bit words represented as `Nat` reduced mod 2^32. -/

/-- UTF-8 encoding of one Unicode code point (Python `str.encode('utf-8')`
for one character). -/
def utf8EncodeChar (c : Char) : List Nat :=
  let n := c.toNat
  if n < 0x80 then [n]
  else if n < 0x800 then [0xc0 + n / 64, 0x80 + n % 64]
  else if n < 0x10000 then
    [0xe0 + n / 4096, 0x80 + n / 64 % 64, 0x80 + n % 64]
  else
    [0xf0 + n / 262144, 0x80 + n / 4096 % 64, 0x80 + n / 64 % 64, 0x80 + n % 64]

/-- UTF-8 encoding of a string (Python `str.encode('utf-8')`). -/
def utf8Encode (s : String) : List Nat :=
  s.data.flatMap utf8EncodeChar

/-- Left rotation of a 32-bit word. -/
def rotl32 (x n : Nat) : Nat :=
  ((x <<< n) ||| (x >>> (32 - n))) % 4294967296

/-- Bitwise complement of a 32-bit word. -/
def not32 (x : Nat) : Nat :=
  x ^^^ 4294967295

/-- Per-round sine-derived constants of MD5 (RFC 1321 table T). -/
def md5K : List Nat :=
  [0xd76aa478, 0xe8c7b756, 0x242070db, 0xc1bdceee,
   0xf57c0faf, 0x4787c62a, 0xa8304613, 0xfd469501,
   0x698098d8, 0x8b44f7af, 0xffff5bb1, 0x895cd7be,
   0x6b901122, 0xfd987193, 0xa679438e, 0x49b40821,
   0xf61e2562, 0xc040b340, 0x265e5a51, 0xe9b6c7aa,
   0xd62f105d, 0x02441453, 0xd8a1e681, 0xe7d3fbc8,
   0x21e1cde6, 0xc33707d6, 0xf4d50d87, 0x455a14ed,
   0xa9e3e905, 0xfcefa3f8, 0x676f02d9, 0x8d2a4c8a,
   0xfffa3942, 0x8771f681, 0x6d9d6122, 0xfde5380c,
   0xa4beea44, 0x4bdecfa9, 0xf6bb4b60, 0xbebfbc70,
   0x289b7ec6, 0xeaa127fa, 0xd4ef3085, 0x04881d05,
   0xd9d4d039, 0xe6db99e5, 0x1fa27cf8, 0xc4ac5665,
   0xf4292244, 0x432aff97, 0xab9423a7, 0xfc93a039,
   0x655b59c3, 0x8f0ccc92, 0xffeff47d, 0x85845dd1,
   0x6fa87e4f, 0xfe2ce6e0, 0xa3014314, 0x4e0811a1,
   0xf7537e82, 0xbd3af235, 0x2ad7d2bb, 0xeb86d391]

/-- Per-round left-rotation amounts of MD5. -/
def md5S : List Nat :=
  [7, 12, 17, 22, 7, 12, 17, 22, 7, 12, 17, 22, 7, 12, 17, 22,
   5, 9, 14, 20, 5, 9, 14, 20, 5, 9, 14, 20, 5, 9, 14, 20,
   4, 11, 16, 23, 4, 11, 16, 23, 4, 11, 16, 23, 4, 11, 16, 23,
   6, 10, 15, 21, 6, 10, 15, 21, 6, 10, 15, 21, 6, 10, 15, 21]

/-- MD5 padding: append the 0x80 marker, zero bytes until the length is
congruent to 56 mod 64, then the original bit length as 8 little-endian
bytes. -/
def md5Pad (msg : List Nat) : List Nat :=
  let padLen := (120 - (msg.length + 1) % 64) % 64
  let bitLen := msg.length * 8 % 18446744073709551616
  msg ++ [0x80] ++ List.replicate padLen 0 ++
    [bitLen % 256, bitLen / 256 % 256, bitLen / 65536 % 256,
     bitLen / 16777216 % 256, bitLen / 4294967296 % 256,
     bitLen / 1099511627776 % 256, bitLen / 281474976710656 % 256,
     bitLen / 72057594037927936 % 256]

/-- Little-endian 32-bit word number `g` of a 64-byte chunk. -/
def chunkWord (chunk : List Nat) (g : Nat) : Nat :=
  chunk.getD (4 * g) 0 + chunk.getD (4 * g + 1) 0 * 256 +
    chunk.getD (4 * g + 2) 0 * 65536 + chunk.getD (4 * g + 3) 0 * 16777216

/-- One of the 64 MD5 rounds applied to the working state (a, b, c, d). -/
def md5Round (chunk : List Nat) (st : Nat × Nat × Nat × Nat) (i : Nat) :
    Nat × Nat × Nat × Nat :=
  let (a, b, c, d) := st
  let (f, g) :=
    if i < 16 then ((b &&& c) ||| (not32 b &&& d), i)
    else if i < 32 then ((d &&& b) ||| (not32 d &&& c), (5 * i + 1) % 16)
    else if i < 48 then (b ^^^ c ^^^ d, (3 * i + 5) % 16)
    else (c ^^^ (b ||| not32 d), 7 * i % 16)
  let f := (f + a + md5K.getD i 0 + chunkWord chunk g) % 4294967296
  (d, (b + rotl32 f (md5S.getD i 0)) % 4294967296, b, c)

/-- Processing of one 64-byte chunk: 64 rounds, then addition of the
round output into the running digest state. -/
def md5Chunk (st : Nat × Nat × Nat × Nat) (chunk : List Nat) :
    Nat × Nat × Nat × Nat :=
  let (a0, b0, c0, d0) := st
  let (a, b, c, d) := (List.range 64).foldl (md5Round chunk) (a0, b0, c0, d0)
  ((a0 + a) % 4294967296, (b0 + b) % 4294967296,
   (c0 + c) % 4294967296, (d0 + d) % 4294967296)

/-- Little-endian byte serialization of the four 32-bit state words into
the 16-byte MD5 digest. -/
def md5Digest (st : Nat × Nat × Nat × Nat) : List Nat :=
  let (a, b, c, d) := st
  [a &&& 255, a >>> 8 &&& 255, a >>> 16 &&& 255, a >>> 24 &&& 255,
   b &&& 255, b >>> 8 &&& 255, b >>> 16 &&& 255, b >>> 24 &&& 255,
   c &&& 255, c >>> 8 &&& 255, c >>> 16 &&& 255, c >>> 24 &&& 255,
   d &&& 255, d >>> 8 &&& 255, d >>> 16 &&& 255, d >>> 24 &&& 255]

/-- MD5 of a byte string: the 16-byte digest (embedding of
`hashlib.md5(...).digest()`). -/
def md5 (msg : List Nat) : List Nat :=
  let padded := md5Pad msg
  let final := (List.range (padded.length / 64)).foldl
    (fun st i => md5Chunk st ((padded.drop (64 * i)).take 64))
    (0x67452301, 0xefcdab89, 0x98badcfe, 0x10325476)
  md5Digest final

/-- Lowercase hexadecimal MD5 digest of a byte string (embedding of
`hashlib.md5(...).hexdigest()`). -/
def md5Hexdigest (msg : List Nat) : String :=
  ⟨(md5 msg).flatMap byteHex⟩

/-- The fixed `app_key` constant of `generate_sign`
(src/utils/xianyu_utils.py line 63). -/
def sign_app_key : String := "34839810"

/-- The message concatenated by `generate_sign` before hashing
(src/utils/xianyu_utils.py line 64). -/
def signMsg (t token data : String) : String :=
  token ++ "&" ++ t ++ "&" ++ sign_app_key ++ "&" ++ data

/-- Embedding of `generate_sign` (src/utils/xianyu_utils.py lines 61-69):
MD5 hexdigest of the UTF-8 bytes of `token&t&app_key&data`. -/
def generate_sign (t token data : String) : String :=
  md5Hexdigest (utf8Encode (signMsg t token data))

/-! ## Signed request constants of the two API operations
(src/XianyuApis.py, get_token lines 152-166 and get_item_info
lines 210-228) -/

/-- Fixed plus per-call query parameters built by `get_token`
(src/XianyuApis.py lines 152-165), with `t` the millisecond timestamp
string; `sign` is filled in after signing. -/
def getTokenParams (t : String) : List (String × String) :=
  [("jsv", "2.7.2"), ("appKey", "34839810"), ("t", t), ("sign", ""),
   ("v", "1.0"), ("type", "originaljson"), ("accountSite", "xianyu"),
   ("dataType", "json"), ("timeout", "20000"),
   ("api", "mtop.taobao.idlemessage.pc.login.token"),
   ("sessionOption", "AutoLoginOnly"), ("spm_cnt", "a21ybx.im.0.0")]

/-- Query parameters built by `get_item_info`
(src/XianyuApis.py lines 210-223). -/
def getItemInfoParams (t : String) : List (String × String) :=
  [("jsv", "2.7.2"), ("appKey", "34839810"), ("t", t), ("sign", ""),
   ("v", "1.0"), ("type", "originaljson"), ("accountSite", "xianyu"),
   ("dataType", "json"), ("timeout", "20000"),
   ("api", "mtop.taobao.idle.pc.detail"),
   ("sessionOption", "AutoLoginOnly"), ("spm_cnt", "a21ybx.im.0.0")]

/-- The inner `appKey` literal of the `get_token` JSON payload
(src/XianyuApis.py line 166). -/
def tokenPayloadAppKey : String := "444e9908a51d1cb236a27862abc769c9"

/-- The JSON payload string built by `get_token` (src/XianyuApis.py
line 166): a string concatenation around the device id. -/
def getTokenDataVal (device_id : String) : String :=
  "\x7b\"appKey\":\"444e9908a51d1cb236a27862abc769c9\",\"deviceId\":\""
    ++ device_id ++ "\"\x7d"

/-- The JSON payload string built by `get_item_info`
(src/XianyuApis.py line 225). -/
def getItemInfoDataVal (item_id : String) : String :=
  "\x7b\"itemId\":\"" ++ item_id ++ "\"\x7d"

/-- Sign input of a `get_token` call: the signing-engine message for the
token read from the current cookie set (src/XianyuApis.py lines 172-174). -/
def getTokenSignInput (cookies : List (String × String)) (t device_id : String) : String :=
  signMsg t (tokenOf cookies) (getTokenDataVal device_id)

/-- Sign input of a `get_item_info` call (src/XianyuApis.py
lines 231-233). -/
def getItemInfoSignInput (cookies : List (String × String)) (t item_id : String) : String :=
  signMsg t (tokenOf cookies) (getItemInfoDataVal item_id)

/-! ## Retry/reauthentication control flow (src/XianyuApis.py)

The HTTP layer is abstracted by oracles indexed by the attempt number.
For `hasLogin` and `get_token` only the success/failure of each attempt
steers control flow, so those oracles are `Nat → Bool` (attempt `n`
succeeded); for `get_item_info` the response body shape matters for the
claims, so its oracle returns an `HttpResponse`. Each embedded call also
returns the index of the next unused attempt, so that the number of HTTP
attempts an execution consumed is observable in theorems. -/

/-- Embedding of `XianyuApis.hasLogin` (src/XianyuApis.py lines 89-138):
`lO n` tells whether the n-th login-status HTTP attempt reports success
(`res_json['content']['success']` truthy); a failing response and a
raised exception both fall through to the same recursive retry, so they
are not distinguished. Result: (returned boolean, next attempt index). -/
def hasLogin (lO : Nat → Bool) (idx retry_count : Nat) : Bool × Nat :=
  if 2 ≤ retry_count then (false, idx)
  else if lO idx then (true, idx + 1)
  else hasLogin lO (idx + 1) (retry_count + 1)
termination_by 2 - retry_count
decreasing_by omega

/-- Terminal outcomes of a `get_token` call: returning the token response
(success) or `sys.exit(1)` (fatal halt). -/
inductive TokenResult where
  | success
  | fatal
deriving DecidableEq

/-- Embedding of `XianyuApis.get_token` (src/XianyuApis.py lines
140-202). `tO n` tells whether the n-th token HTTP attempt carries the
`SUCCESS::` marker; every failure shape of the source (missing marker,
non-dict body, raised exception) recurses with `retry_count + 1`, so one
boolean suffices. The source recursion has no structural bound (the
reauthentication branch resets `retry_count` to 0), so the embedding
takes explicit `fuel`: `none` means the source recursion performed more
than `fuel` calls. `tIdx`/`lIdx` are the next token/login attempt
indices. -/
def getToken (tO lO : Nat → Bool) : Nat → Nat → Nat → Nat → Option TokenResult
  | 0, _, _, _ => none
  | fuel + 1, tIdx, lIdx, retry_count =>
    if 2 ≤ retry_count then
      match hasLogin lO lIdx 0 with
      | (true, lIdx') => getToken tO lO fuel tIdx lIdx' 0
      | (false, _) => some .fatal
    else if tO tIdx then some .success
    else getToken tO lO fuel (tIdx + 1) lIdx (retry_count + 1)

/-- Termination of a `get_token` call started at attempt zero: some
finite recursion depth suffices to reach a terminal outcome. -/
def getTokenTerminates (tO lO : Nat → Bool) : Prop :=
  ∃ fuel, (getToken tO lO fuel 0 0 0).isSome

/-- Shape of one `get_item_info` HTTP attempt as far as the source
inspects it: a JSON dict with its `ret` list of status strings, a
well-formed JSON body that is not a dict, or a raised exception
(transport error / unparsable body). -/
inductive HttpResponse where
  | dict (ret : List String)
  | nonDict
  | exn
deriving DecidableEq

/-- The success marker checked by both signed calls
(src/XianyuApis.py lines 184 and 248): some entry of `ret` contains the
literal substring `SUCCESS::调用成功`. -/
def retSuccess (ret : List String) : Bool :=
  ret.any (fun r => listContainsSub "SUCCESS::调用成功".data r.data)

/-- Success test of one response as performed by `get_item_info`:
only a dict body whose `ret` carries the marker is a success. -/
def respSuccess : HttpResponse → Bool
  | .dict ret => retSuccess ret
  | .nonDict => false
  | .exn => false

/-- Outcomes of `get_item_info`: the parsed response on success, or the
error dict `{"error": "获取商品信息失败，重试次数过多"}` returned when the
retry budget is exhausted (src/XianyuApis.py line 208). -/
inductive ItemResult where
  | success (ret : List String)
  | errorValue
deriving DecidableEq

/-- Embedding of `XianyuApis.get_item_info` (src/XianyuApis.py lines
204-266): `resp n` is the n-th HTTP attempt's response; every failure
shape recurses with `retry_count + 1` until the `retry_count >= 3` guard
returns the error dict. Result: (outcome, next attempt index), so the
second component counts the HTTP attempts made when started at index 0. -/
def get_item_info (resp : Nat → HttpResponse) (idx retry_count : Nat) : ItemResult × Nat :=
  if 3 ≤ retry_count then (.errorValue, idx)
  else
    match resp idx with
    | .dict ret =>
      if retSuccess ret then (.success ret, idx + 1)
      else get_item_info resp (idx + 1) (retry_count + 1)
    | .nonDict => get_item_info resp (idx + 1) (retry_count + 1)
    | .exn => get_item_info resp (idx + 1) (retry_count + 1)
termination_by 3 - retry_count
decreasing_by all_goals omega

/-! ## Binary decode pipeline (src/utils/xianyu_utils.py)

The cursor of `MessagePackDecoder` is an explicit position into the byte
list; each reading method returns the value read together with the new
position, or the exception it raises. CPython's recursion limit is
modelled by a fuel parameter decremented on every decoded element (the
source raises `RecursionError` on deep nesting; fuel exhaustion is that
exception and is caught like any other). -/

/-- Decoded MessagePack values (the `Any` tree produced by the source
decoder). Floats carry the raw big-endian IEEE-754 bit pattern read from
the wire together with a width marker; their numeric interpretation is
never needed by the claims. -/
inductive MsgValue where
  | int (n : Int)
  | str (s : String)
  | bin (bs : List Nat)
  | boolean (b : Bool)
  | nil
  | float (bits : Nat) (double : Bool)
  | arr (xs : List MsgValue)
  | map (ps : List (MsgValue × MsgValue))

/-- Embedding of `MessagePackDecoder.read_byte`
(src/utils/xianyu_utils.py lines 80-85). -/
def readByte (bs : List Nat) (pos : Nat) : Except String (Nat × Nat) :=
  if bs.length ≤ pos then .error "Unexpected end of data"
  else .ok (bs.getD pos 0, pos + 1)

/-- Embedding of `MessagePackDecoder.read_bytes`
(src/utils/xianyu_utils.py lines 87-92). -/
def readBytes (bs : List Nat) (pos count : Nat) : Except String (List Nat × Nat) :=
  if bs.length < pos + count then .error "Unexpected end of data"
  else .ok ((bs.drop pos).take count, pos + count)

/-- Big-endian integer value of a byte list (the `struct.unpack('>…')`
readings of the source's `read_uint8/16/32/64`). -/
def beBytes (bs : List Nat) : Nat :=
  bs.foldl (fun a b => a * 256 + b) 0

/-- Two's-complement reinterpretation for the signed readings
(`read_int8/16/32/64`), with `w` the bit width. -/
def toSigned (w v : Nat) : Int :=
  if v < 2 ^ (w - 1) then (v : Int) else (v : Int) - 2 ^ w

/-- Strict UTF-8 decoding of a byte list into code points (Python
`bytes.decode('utf-8')`): rejects truncated sequences, continuation
errors, overlong forms, surrogates and code points above U+10FFFF. -/
def utf8Decode : List Nat → Option (List Char)
  | [] => some []
  | b :: rest =>
    if b < 0x80 then
      match utf8Decode rest with
      | some cs => some (Char.ofNat b :: cs)
      | none => none
    else if 0xc2 ≤ b ∧ b ≤ 0xdf then
      match rest with
      | b1 :: rest2 =>
        if 0x80 ≤ b1 ∧ b1 ≤ 0xbf then
          match utf8Decode rest2 with
          | some cs => some (Char.ofNat ((b - 0xc0) * 64 + (b1 - 0x80)) :: cs)
          | none => none
        else none
      | [] => none
    else if 0xe0 ≤ b ∧ b ≤ 0xef then
      match rest with
      | b1 :: b2 :: rest2 =>
        if (if b = 0xe0 then 0xa0 else 0x80) ≤ b1 ∧
            b1 ≤ (if b = 0xed then 0x9f else 0xbf) ∧
            0x80 ≤ b2 ∧ b2 ≤ 0xbf then
          match utf8Decode rest2 with
          | some cs =>
            some (Char.ofNat ((b - 0xe0) * 4096 + (b1 - 0x80) * 64 + (b2 - 0x80)) :: cs)
          | none => none
        else none
      | _ => none
    else if 0xf0 ≤ b ∧ b ≤ 0xf4 then
      match rest with
      | b1 :: b2 :: b3 :: rest2 =>
        if (if b = 0xf0 then 0x90 else 0x80) ≤ b1 ∧
            b1 ≤ (if b = 0xf4 then 0x8f else 0xbf) ∧
            0x80 ≤ b2 ∧ b2 ≤ 0xbf ∧ 0x80 ≤ b3 ∧ b3 ≤ 0xbf then
          match utf8Decode rest2 with
          | some cs =>
            some (Char.ofNat ((b - 0xf0) * 262144 + (b1 - 0x80) * 4096 +
              (b2 - 0x80) * 64 + (b3 - 0x80)) :: cs)
          | none => none
        else none
      | _ => none
    else none

/-- Embedding of `MessagePackDecoder.read_string`
(src/utils/xianyu_utils.py lines 124-125): read raw bytes, then strict
UTF-8 decode (`UnicodeDecodeError` on invalid input). -/
def readString (bs : List Nat) (pos len : Nat) : Except String (String × Nat) :=
  match readBytes bs pos len with
  | .error e => .error e
  | .ok (slice, p) =>
    match utf8Decode slice with
    | some cs => .ok (⟨cs⟩, p)
    | none => .error "invalid utf-8 sequence"

/-- Python hashability of a decoded value: lists and dicts are
unhashable and cannot be used as dict keys (`result[key] = value`
raises `TypeError` for them inside `decode_map`). -/
def pyHashable : MsgValue → Bool
  | .arr _ => false
  | .map _ => false
  | _ => true

/-- Exact value of a Python numeric scalar used as a dict key: a finite
value `m * 2^e` (every int, bool and finite IEEE-754 float is of this
form), an infinity, or NaN. -/
inductive PyNum where
  | finite (m : Int) (e : Int)
  | posInf
  | negInf
  | nan

/-- Exact value denoted by an IEEE-754 bit pattern (single precision for
`double = false`, double precision for `double = true`): sign, biased
exponent and fraction fields, with subnormals, infinities and NaN
classified as in the standard. `struct.unpack` widens a single to a
Python float exactly, so only the denoted value matters for equality. -/
def floatNum (bits : Nat) (double : Bool) : PyNum :=
  let expBits : Nat := if double then 11 else 8
  let mantBits : Nat := if double then 52 else 23
  let bias : Int := if double then 1023 else 127
  let sign := bits / 2 ^ (expBits + mantBits) % 2
  let exp := bits / 2 ^ mantBits % 2 ^ expBits
  let frac := bits % 2 ^ mantBits
  if exp = 2 ^ expBits - 1 then
    if frac = 0 then (if sign = 1 then .negInf else .posInf) else .nan
  else
    let mag : Int := if exp = 0 then (frac : Int) else 2 ^ mantBits + frac
    .finite (if sign = 1 then -mag else mag)
      ((if exp = 0 then 1 else (exp : Int)) - bias - mantBits)

/-- Numeric value of a Python bool, which is an int subtype
(`True == 1`, `False == 0`). -/
def boolNum (b : Bool) : PyNum :=
  .finite (if b then 1 else 0) 0

/-- Equality of Python numeric values: finite values compare as exact
numbers `m * 2^e` (so `True == 1`, `1 == 1.0`, and equal floats of
different wire widths are the same key), infinities by sign, and NaN is
equal to nothing — not even a bit-identical NaN. -/
def numEq : PyNum → PyNum → Bool
  | .finite m1 e1, .finite m2 e2 =>
    if e1 ≤ e2 then m1 == m2 * 2 ^ (e2 - e1).toNat
    else m1 * 2 ^ (e1 - e2).toNat == m2
  | .posInf, .posInf => true
  | .negInf, .negInf => true
  | _, _ => false

/-- Key equality used by the embedded dict, following Python's
`==`-based dict key matching: strings and bytes compare by content,
`None` only equals `None`, numeric scalars (int, bool, float) compare by
exact numeric value across types, and NaN keys match no key — the
decoder builds every float key as a fresh object, so Python's identity
shortcut (`k1 is k2 or k1 == k2`) never fires for NaN and bit-identical
NaN keys stay distinct entries, as in the source. Containers never occur
as keys (they are rejected as unhashable before insertion). -/
def keyEq : MsgValue → MsgValue → Bool
  | .int a, .int b => numEq (.finite a 0) (.finite b 0)
  | .int a, .boolean b => numEq (.finite a 0) (boolNum b)
  | .int a, .float bits d => numEq (.finite a 0) (floatNum bits d)
  | .boolean a, .int b => numEq (boolNum a) (.finite b 0)
  | .boolean a, .boolean b => numEq (boolNum a) (boolNum b)
  | .boolean a, .float bits d => numEq (boolNum a) (floatNum bits d)
  | .float bits d, .int b => numEq (floatNum bits d) (.finite b 0)
  | .float bits d, .boolean b => numEq (floatNum bits d) (boolNum b)
  | .float bits d, .float bits2 d2 => numEq (floatNum bits d) (floatNum bits2 d2)
  | .str x, .str y => x == y
  | .bin x, .bin y => x == y
  | .nil, .nil => true
  | _, _ => false

/-- Embedding of the Python dict assignment `result[key] = value` on an
association list in insertion order: an existing entry with an equal key
keeps its position (and its original key object) and has its value
replaced; a new key is appended. -/
def assocSet (m : List (MsgValue × MsgValue)) (k v : MsgValue) : List (MsgValue × MsgValue) :=
  match m with
  | [] => [(k, v)]
  | (k2, v2) :: rest =>
    if keyEq k2 k then (k2, v) :: rest else (k2, v2) :: assocSet rest k v

/-- Dict assignment including the hashability check performed by the
Python runtime when `decode_map` executes `result[key] = value`. -/
def dictSet (m : List (MsgValue × MsgValue)) (k v : MsgValue) :
    Except String (List (MsgValue × MsgValue)) :=
  if pyHashable k then .ok (assocSet m k v) else .error "unhashable type"

mutual

/-- Embedding of `MessagePackDecoder.decode_value`
(src/utils/xianyu_utils.py lines 127-260): dispatch on the format byte,
in the source's branch order. `fuel` models the CPython recursion
limit. -/
def decode_value (bs : List Nat) : Nat → Nat → Except String (MsgValue × Nat)
  | 0, _ => .error "maximum recursion depth exceeded"
  | fuel + 1, pos =>
    match readByte bs pos with
    | .error e => .error e
    | .ok (b, p) =>
      if b ≤ 0x7f then .ok (.int b, p)
      else if 0x80 ≤ b ∧ b ≤ 0x8f then
        match decode_map bs fuel (b &&& 0x0f) p [] with
        | .ok (m, p2) => .ok (.map m, p2)
        | .error e => .error e
      else if 0x90 ≤ b ∧ b ≤ 0x9f then
        match decode_array bs fuel (b &&& 0x0f) p with
        | .ok (xs, p2) => .ok (.arr xs, p2)
        | .error e => .error e
      else if 0xa0 ≤ b ∧ b ≤ 0xbf then
        match readString bs p (b &&& 0x1f) with
        | .ok (s, p2) => .ok (.str s, p2)
        | .error e => .error e
      else if b = 0xc0 then .ok (.nil, p)
      else if b = 0xc2 then .ok (.boolean false, p)
      else if b = 0xc3 then .ok (.boolean true, p)
      else if b = 0xc4 then
        match readByte bs p with
        | .ok (size, p2) =>
          match readBytes bs p2 size with
          | .ok (raw, p3) => .ok (.bin raw, p3)
          | .error e => .error e
        | .error e => .error e
      else if b = 0xc5 then
        match readBytes bs p 2 with
        | .ok (szb, p2) =>
          match readBytes bs p2 (beBytes szb) with
          | .ok (raw, p3) => .ok (.bin raw, p3)
          | .error e => .error e
        | .error e => .error e
      else if b = 0xc6 then
        match readBytes bs p 4 with
        | .ok (szb, p2) =>
          match readBytes bs p2 (beBytes szb) with
          | .ok (raw, p3) => .ok (.bin raw, p3)
          | .error e => .error e
        | .error e => .error e
      else if b = 0xca then
        match readBytes bs p 4 with
        | .ok (raw, p2) => .ok (.float (beBytes raw) false, p2)
        | .error e => .error e
      else if b = 0xcb then
        match readBytes bs p 8 with
        | .ok (raw, p2) => .ok (.float (beBytes raw) true, p2)
        | .error e => .error e
      else if b = 0xcc then
        match readByte bs p with
        | .ok (v, p2) => .ok (.int v, p2)
        | .error e => .error e
      else if b = 0xcd then
        match readBytes bs p 2 with
        | .ok (raw, p2) => .ok (.int (beBytes raw), p2)
        | .error e => .error e
      else if b = 0xce then
        match readBytes bs p 4 with
        | .ok (raw, p2) => .ok (.int (beBytes raw), p2)
        | .error e => .error e
      else if b = 0xcf then
        match readBytes bs p 8 with
        | .ok (raw, p2) => .ok (.int (beBytes raw), p2)
        | .error e => .error e
      else if b = 0xd0 then
        match readByte bs p with
        | .ok (v, p2) => .ok (.int (toSigned 8 v), p2)
        | .error e => .error e
      else if b = 0xd1 then
        match readBytes bs p 2 with
        | .ok (raw, p2) => .ok (.int (toSigned 16 (beBytes raw)), p2)
        | .error e => .error e
      else if b = 0xd2 then
        match readBytes bs p 4 with
        | .ok (raw, p2) => .ok (.int (toSigned 32 (beBytes raw)), p2)
        | .error e => .error e
      else if b = 0xd3 then
        match readBytes bs p 8 with
        | .ok (raw, p2) => .ok (.int (toSigned 64 (beBytes raw)), p2)
        | .error e => .error e
      else if b = 0xd9 then
        match readByte bs p with
        | .ok (size, p2) =>
          match readString bs p2 size with
          | .ok (s, p3) => .ok (.str s, p3)
          | .error e => .error e
        | .error e => .error e
      else if b = 0xda then
        match readBytes bs p 2 with
        | .ok (szb, p2) =>
          match readString bs p2 (beBytes szb) with
          | .ok (s, p3) => .ok (.str s, p3)
          | .error e => .error e
        | .error e => .error e
      else if b = 0xdb then
        match readBytes bs p 4 with
        | .ok (szb, p2) =>
          match readString bs p2 (beBytes szb) with
          | .ok (s, p3) => .ok (.str s, p3)
          | .error e => .error e
        | .error e => .error e
      else if b = 0xdc then
        match readBytes bs p 2 with
        | .ok (szb, p2) =>
          match decode_array bs fuel (beBytes szb) p2 with
          | .ok (xs, p3) => .ok (.arr xs, p3)
          | .error e => .error e
        | .error e => .error e
      else if b = 0xdd then
        match readBytes bs p 4 with
        | .ok (szb, p2) =>
          match decode_array bs fuel (beBytes szb) p2 with
          | .ok (xs, p3) => .ok (.arr xs, p3)
          | .error e => .error e
        | .error e => .error e
      else if b = 0xde then
        match readBytes bs p 2 with
        | .ok (szb, p2) =>
          match decode_map bs fuel (beBytes szb) p2 [] with
          | .ok (m, p3) => .ok (.map m, p3)
          | .error e => .error e
        | .error e => .error e
      else if b = 0xdf then
        match readBytes bs p 4 with
        | .ok (szb, p2) =>
          match decode_map bs fuel (beBytes szb) p2 [] with
          | .ok (m, p3) => .ok (.map m, p3)
          | .error e => .error e
        | .error e => .error e
      else if 0xe0 ≤ b then .ok (.int ((b : Int) - 256), p)
      else .error ("Unknown format byte: 0x" ++ ⟨byteHex b⟩)
termination_by structural fuel _ => fuel

/-- Embedding of `MessagePackDecoder.decode_array`
(src/utils/xianyu_utils.py lines 262-267): `size` recursively decoded
elements, threading the cursor. -/
def decode_array (bs : List Nat) : Nat → Nat → Nat → Except String (List MsgValue × Nat)
  | 0, _, _ => .error "maximum recursion depth exceeded"
  | _ + 1, 0, pos => .ok ([], pos)
  | fuel + 1, size + 1, pos =>
    match decode_value bs fuel pos with
    | .error e => .error e
    | .ok (v, p) =>
      match decode_array bs fuel size p with
      | .ok (vs, p2) => .ok (v :: vs, p2)
      | .error e => .error e
termination_by structural fuel _ _ => fuel

/-- Embedding of `MessagePackDecoder.decode_map`
(src/utils/xianyu_utils.py lines 269-276): `size` key/value pairs
decoded recursively and inserted into the dict `m` by
`result[key] = value` (the accumulator starts empty at each call site,
matching `result = {}`). -/
def decode_map (bs : List Nat) : Nat → Nat → Nat → List (MsgValue × MsgValue) →
    Except String (List (MsgValue × MsgValue) × Nat)
  | 0, _, _, _ => .error "maximum recursion depth exceeded"
  | _ + 1, 0, pos, m => .ok (m, pos)
  | fuel + 1, size + 1, pos, m =>
    match decode_value bs fuel pos with
    | .error e => .error e
    | .ok (k, p1) =>
      match decode_value bs fuel p1 with
      | .error e => .error e
      | .ok (v, p2) =>
        match dictSet m k v with
        | .error e => .error e
        | .ok m2 => decode_map bs fuel size p2 m2
termination_by structural fuel _ _ _ => fuel

end

/-- Observation-order sequence of the key/value pairs of a map payload,
before dict insertion collapses duplicate keys. This is the
specification-side description of "the pairs as they occur in the byte
stream"; it errors in exactly the situations `decode_map` errors
(including the hashability check), which the development proves. -/
def decodeMapPairs (bs : List Nat) : Nat → Nat → Nat →
    Except String (List (MsgValue × MsgValue) × Nat)
  | 0, _, _ => .error "maximum recursion depth exceeded"
  | _ + 1, 0, pos => .ok ([], pos)
  | fuel + 1, size + 1, pos =>
    match decode_value bs fuel pos with
    | .error e => .error e
    | .ok (k, p1) =>
      match decode_value bs fuel p1 with
      | .error e => .error e
      | .ok (v, p2) =>
        if pyHashable k then
          match decodeMapPairs bs fuel size p2 with
          | .ok (ps, p3) => .ok ((k, v) :: ps, p3)
          | .error e => .error e
        else .error "unhashable type"

/-- Fixed recursion budget used when the pipeline invokes the decoder
(stands for CPython's recursion limit; any budget large enough for the
inputs of interest gives the same results, and the claims that quantify
over all byte strings quantify over the fuel as well). -/
def msgpackFuel : Nat := 1000

/-- The base64 alphabet in index order. -/
def b64Alphabet : List Char :=
  "ABCDEFGHIJKLMNOPQRSTUVWXYZabcdefghijklmnopqrstuvwxyz0123456789+/".data

/-- Character of a 6-bit group. -/
def b64Char (n : Nat) : Char :=
  b64Alphabet.getD n 'A'

/-- Standard base64 encoding of a byte list, character list form
(Python `base64.b64encode(...).decode('utf-8')`). -/
def b64encodeChars : List Nat → List Char
  | [] => []
  | [b1] => [b64Char (b1 / 4), b64Char (b1 % 4 * 16), '=', '=']
  | [b1, b2] =>
    [b64Char (b1 / 4), b64Char (b1 % 4 * 16 + b2 / 16), b64Char (b2 % 16 * 4), '=']
  | b1 :: b2 :: b3 :: rest =>
    b64Char (b1 / 4) :: b64Char (b1 % 4 * 16 + b2 / 16) ::
      b64Char (b2 % 16 * 4 + b3 / 64) :: b64Char (b3 % 64) :: b64encodeChars rest

/-- Standard base64 encoding of a byte list as a string. -/
def b64encode (bs : List Nat) : String :=
  ⟨b64encodeChars bs⟩

/-- Index of a character in the base64 alphabet, `none` for
non-alphabet characters. -/
def b64Value (c : Char) : Option Nat :=
  b64Alphabet.findIdx? (fun x => x == c)

/-- Embedding of CPython's lenient `binascii.a2b_base64` as invoked by
`base64.b64decode` with default validation: non-alphabet characters are
skipped (leaving the pad count untouched); a `=` is ignored while fewer
than two sextets of the current group have been seen, and otherwise
counts towards the padding that, once it completes a group of four,
flushes the partial group and ends the scan; every valid data character
resets the pad count to zero (`pads = 0` in `binascii_a2b_base64`), so
padding interrupted by data does not carry over; leftover sextets at the
end of input are an error (one leftover sextet is the
data-character-count error, two or three are `Incorrect padding`).
State: `quad` counts the sextets of the current group (0..3), `acc`
their accumulated bits, `pads` the padding characters seen since the
last data character. -/
def a2b64 : List Char → Nat → Nat → Nat → Except String (List Nat)
  | [], quad, _, _ =>
    if quad = 0 then .ok []
    else if quad = 1 then
      .error "Invalid base64-encoded string: number of data characters cannot be 1 more than a multiple of 4"
    else .error "Incorrect padding"
  | c :: rest, quad, acc, pads =>
    if c = '=' then
      if 2 ≤ quad ∧ 4 ≤ quad + (pads + 1) then
        if quad = 2 then .ok [acc / 16]
        else .ok [acc / 1024, acc / 4 % 256]
      else a2b64 rest quad acc (if 2 ≤ quad then pads + 1 else pads)
    else
      match b64Value c with
      | none => a2b64 rest quad acc pads
      | some v =>
        if quad = 3 then
          match a2b64 rest 0 0 0 with
          | .ok bs =>
            .ok ((acc * 64 + v) / 65536 :: (acc * 64 + v) / 256 % 256 ::
              (acc * 64 + v) % 256 :: bs)
          | .error e => .error e
        else a2b64 rest (quad + 1) (acc * 64 + v) 0

/-- Embedding of `base64.b64decode` applied to the cleaned and padded
string of the pipeline. -/
def b64decode (s : String) : Except String (List Nat) :=
  a2b64 s.data 0 0 0

/-! ### JSON serialization (Python `json.dumps`)

The pipeline serializes with `json.dumps(result, ensure_ascii=False,
default=json_serializer)` for decoded values, and plain `json.dumps`
(so `ensure_ascii=True`) for the text/hex/error fallback dicts. The
`ea` flag selects the escaping mode. -/

/-- Four-digit lowercase hexadecimal rendering (the `XXXX` of `\uXXXX`). -/
def hex4 (n : Nat) : List Char :=
  [hexChar (n / 4096 % 16), hexChar (n / 256 % 16), hexChar (n / 16 % 16),
   hexChar (n % 16)]

/-- Escaping of one character inside a JSON string literal, following
CPython's `json` encoder: quote, backslash and the C0 controls are
always escaped (with the five short forms); with `ea = true` every
character outside 0x20..0x7e is escaped as `\uXXXX`, using a surrogate
pair beyond the BMP. -/
def jsonEscapeChar (ea : Bool) (c : Char) : List Char :=
  if c = '"' then ['\\', '"']
  else if c = '\\' then ['\\', '\\']
  else if c = Char.ofNat 10 then ['\\', 'n']
  else if c = Char.ofNat 9 then ['\\', 't']
  else if c = Char.ofNat 13 then ['\\', 'r']
  else if c = Char.ofNat 8 then ['\\', 'b']
  else if c = Char.ofNat 12 then ['\\', 'f']
  else if c.toNat < 0x20 then '\\' :: 'u' :: hex4 c.toNat
  else if ea ∧ 0x7f ≤ c.toNat then
    if c.toNat < 0x10000 then '\\' :: 'u' :: hex4 c.toNat
    else
      ('\\' :: 'u' :: hex4 (0xd800 + (c.toNat - 0x10000) / 1024)) ++
        ('\\' :: 'u' :: hex4 (0xdc00 + (c.toNat - 0x10000) % 1024))
  else [c]

/-- JSON string literal for a Python `str`, character list form. -/
def jsonQuoteChars (ea : Bool) (s : String) : List Char :=
  '"' :: s.data.flatMap (jsonEscapeChar ea) ++ ['"']

/-- JSON string literal for a Python `str`. -/
def jsonQuote (ea : Bool) (s : String) : String :=
  ⟨jsonQuoteChars ea s⟩

/-- Abstraction of CPython's decimal rendering of a float (`repr`): the
claims never inspect the text of a serialized float, so the rendering
exposes the raw bit pattern instead of implementing IEEE-754 shortest
decimal output. -/
def floatRepr (bits : Nat) (double : Bool) : List Char :=
  ((if double then "float64:" else "float32:") ++ toString bits).data

/-- Rendering of a dict key by `json.dumps`: string keys are quoted and
escaped; int, float, bool and None keys are coerced to their JSON text
inside quotes; bytes keys raise `TypeError` (the `default` hook is not
applied to keys); container keys cannot occur in a dict. -/
def jsonSerKey (ea : Bool) : MsgValue → Except String (List Char)
  | .str s => .ok (jsonQuoteChars ea s)
  | .int n => .ok ('"' :: (toString n).data ++ ['"'])
  | .boolean b => .ok (if b then "\"true\"".data else "\"false\"".data)
  | .nil => .ok "\"null\"".data
  | .float bits d => .ok ('"' :: floatRepr bits d ++ ['"'])
  | .bin _ => .error "keys must be str, int, float, bool or None, not bytes"
  | .arr _ => .error "keys must be str, int, float, bool or None"
  | .map _ => .error "keys must be str, int, float, bool or None"

mutual

/-- Embedding of `json.dumps` applied to a decoded value, with the
`json_serializer` default hook of the pipeline (src/utils/xianyu_utils.py
lines 310-320): bytes values become their UTF-8 decoding when valid,
else their base64 text. Default separators: `", "` and `": "`. `fuel`
models the recursion limit of the encoder. -/
def jsonSer (ea : Bool) : Nat → MsgValue → Except String (List Char)
  | 0, _ => .error "maximum recursion depth exceeded"
  | _ + 1, .str s => .ok (jsonQuoteChars ea s)
  | _ + 1, .int n => .ok (toString n).data
  | _ + 1, .boolean b => .ok (if b then "true".data else "false".data)
  | _ + 1, .nil => .ok "null".data
  | _ + 1, .float bits d => .ok (floatRepr bits d)
  | _ + 1, .bin bs =>
    match utf8Decode bs with
    | some cs => .ok (jsonQuoteChars ea ⟨cs⟩)
    | none => .ok (jsonQuoteChars ea (b64encode bs))
  | fuel + 1, .arr xs =>
    match jsonSerList ea fuel xs with
    | .ok parts => .ok ('[' :: List.intercalate ", ".data parts ++ [']'])
    | .error e => .error e
  | fuel + 1, .map ps =>
    match jsonSerPairs ea fuel ps with
    | .ok parts =>
      .ok (Char.ofNat 123 :: List.intercalate ", ".data parts ++ [Char.ofNat 125])
    | .error e => .error e
termination_by structural fuel _ => fuel

/-- Serialization of the elements of a JSON array. -/
def jsonSerList (ea : Bool) : Nat → List MsgValue → Except String (List (List Char))
  | 0, _ => .error "maximum recursion depth exceeded"
  | _ + 1, [] => .ok []
  | fuel + 1, x :: xs =>
    match jsonSer ea fuel x with
    | .error e => .error e
    | .ok part =>
      match jsonSerList ea fuel xs with
      | .ok parts => .ok (part :: parts)
      | .error e => .error e
termination_by structural fuel _ => fuel

/-- Serialization of the `"key": value` members of a JSON object. -/
def jsonSerPairs (ea : Bool) : Nat → List (MsgValue × MsgValue) →
    Except String (List (List Char))
  | 0, _ => .error "maximum recursion depth exceeded"
  | _ + 1, [] => .ok []
  | fuel + 1, (k, v) :: ps =>
    match jsonSerKey ea k with
    | .error e => .error e
    | .ok kc =>
      match jsonSer ea fuel v with
      | .error e => .error e
      | .ok vc =>
        match jsonSerPairs ea fuel ps with
        | .ok parts => .ok ((kc ++ ": ".data ++ vc) :: parts)
        | .error e => .error e
termination_by structural fuel _ => fuel

end

/-- Embedding of `json.dumps(result, ensure_ascii=False,
default=json_serializer)` (src/utils/xianyu_utils.py line 322) and of the
plain `json.dumps` used by the fallback tiers (`ea` selects the mode). -/
def jsonDumps (ea : Bool) (v : MsgValue) : Except String String :=
  match jsonSer ea msgpackFuel v with
  | .ok cs => .ok ⟨cs⟩
  | .error e => .error e

/-! ### The decrypt pipeline (src/utils/xianyu_utils.py lines 287-335) -/

/-- Embedding of `MessagePackDecoder.decode` (src/utils/xianyu_utils.py
lines 278-284): decode one value; on any exception (including the
recursion limit), swallow it and return the base64 text of the raw input
bytes instead. This function is total: it cannot raise. -/
def decoderDecode (bs : List Nat) : MsgValue :=
  match decode_value bs msgpackFuel 0 with
  | .ok (v, _) => v
  | .error _ => .str (b64encode bs)

/-- The base64-alphabet filter of the pipeline (src/utils/xianyu_utils.py
line 292): keep exactly the characters of
`'ABCDEFGHIJKLMNOPQRSTUVWXYZabcdefghijklmnopqrstuvwxyz0123456789+/='`. -/
def cleanB64 (s : String) : String :=
  ⟨s.data.filter (fun c => c ∈ b64Alphabet ++ ['='])⟩

/-- The padding loop of the pipeline (src/utils/xianyu_utils.py lines
295-296): append `=` while the length is not a multiple of 4; the loop
appends exactly `(4 - len % 4) % 4` characters. -/
def padB64 (s : String) : String :=
  s ++ ⟨List.replicate ((4 - s.length % 4) % 4) '='⟩

/-- The error dict returned when base64 decoding fails
(src/utils/xianyu_utils.py line 302). -/
def b64FailJson (e raw : String) : String :=
  "\x7b\"error\": " ++ jsonQuote true ("Base64 decode failed: " ++ e) ++
    ", \"raw_data\": " ++ jsonQuote true raw ++ "\x7d"

/-- The text-tier result `json.dumps({"text": t})`
(src/utils/xianyu_utils.py line 328). -/
def textJson (t : String) : String :=
  "\x7b\"text\": " ++ jsonQuote true t ++ "\x7d"

/-- The hex-tier result `json.dumps({"hex": h, "error": "Decode failed: e"})`
(src/utils/xianyu_utils.py lines 331-332). -/
def hexJson (h e : String) : String :=
  "\x7b\"hex\": " ++ jsonQuote true h ++ ", \"error\": " ++
    jsonQuote true ("Decode failed: " ++ e) ++ "\x7d"

/-- The outermost error dict (src/utils/xianyu_utils.py line 335). -/
def outerFailJson (e raw : String) : String :=
  "\x7b\"error\": " ++ jsonQuote true ("Decrypt failed: " ++ e) ++
    ", \"raw_data\": " ++ jsonQuote true raw ++ "\x7d"

/-- Embedding of the body of `decrypt` inside its outermost `try`
(src/utils/xianyu_utils.py lines 289-332): clean, pad, base64-decode
(its failure handled by the inner `except` into the error dict), then
MessagePack-decode and JSON-serialize; a serialization failure falls
back to the UTF-8 text tier and then to the hex tier. An `Except.error`
result would mean an uncaught exception propagating to the outer
handler. -/
def decryptBody (data : String) : Except String String :=
  let cleaned := padB64 (cleanB64 data)
  match b64decode cleaned with
  | .error e => .ok (b64FailJson e data)
  | .ok decoded_bytes =>
    match jsonDumps false (decoderDecode decoded_bytes) with
    | .ok s => .ok s
    | .error e =>
      match utf8Decode decoded_bytes with
      | some cs => .ok (textJson ⟨cs⟩)
      | none => .ok (hexJson (bytesHex decoded_bytes) e)

/-- Embedding of `decrypt` (src/utils/xianyu_utils.py lines 287-335):
the body wrapped in the outermost exception handler. -/
def decrypt (data : String) : String :=
  match decryptBody data with
  | .ok out => out
  | .error e => outerFailJson e data

/-- Classifier used to state the decode-degradation claim: a pipeline
result is error-kind (base64-tier), text-kind or hex-kind exactly when it
is the JSON rendering of a dict whose first key is `error`, `text` or
`hex`; every such dict rendered by `json.dumps` starts with the
corresponding prefix, and no JSON value of another shape does. -/
def startsWithStr (p s : String) : Bool :=
  p.data.isPrefixOf s.data

/-- Error-kind (base64-tier) results of the pipeline. -/
def isErrorKind (out : String) : Bool :=
  startsWithStr "\x7b\"error\"" out

/-- Text-kind results of the pipeline. -/
def isTextKind (out : String) : Bool :=
  startsWithStr "\x7b\"text\"" out

/-- Hex-kind results of the pipeline. -/
def isHexKind (out : String) : Bool :=
  startsWithStr "\x7b\"hex\"" out

/-! ## Specification-side definitions

These definitions restate, in the words of the specification, properties
that the theorems below compare against the source embeddings. -/

/-- Specification formula for the signing engine: "concatenate
`token + "&" + timestamp + "&" + appKey + "&" + payload` ..., then
compute a 128-bit digest over the UTF-8 bytes and render as lowercase
hex". -/
def signSpecFormula (t token payload : String) : String :=
  ⟨(md5 (utf8Encode (token ++ "&" ++ t ++ "&" ++ "34839810" ++ "&" ++ payload))).flatMap byteHex⟩

/-- The lowercase hexadecimal digit alphabet. -/
def hexDigits : List Char := "0123456789abcdef".data

/-- Specification description of the most recently observed value for a
cookie name: the value of the last entry carrying that name. -/
def mostRecentValue (cs : List (String × String)) (n : String) : Option String :=
  ((cs.filter (fun p => p.1 == n)).getLast?).map Prod.snd
/-! ## Theorems: helper lemmas -/

theorem dedupKeepFirst_not_seen : ∀ (l : List (String × String)) (seen : List String)
    (x : String), x ∈ (dedupKeepFirst seen l).map Prod.fst → x ∉ seen := by
  intro l
  induction l with
  | nil => intro seen x h; simp [dedupKeepFirst] at h
  | cons c rest ih =>
    intro seen x h
    by_cases hc : c.1 ∈ seen
    · rw [dedupKeepFirst, if_pos hc] at h
      exact ih seen x h
    · rw [dedupKeepFirst, if_neg hc] at h
      simp only [List.map_cons, List.mem_cons] at h
      rcases h with h | h
      · intro hx; exact hc (h ▸ hx)
      · intro hx
        exact ih (c.1 :: seen) x h (List.mem_cons_of_mem _ hx)

theorem dedupKeepFirst_nodup : ∀ (l : List (String × String)) (seen : List String),
    ((dedupKeepFirst seen l).map Prod.fst).Nodup := by
  intro l
  induction l with
  | nil => intro seen; simp [dedupKeepFirst]
  | cons c rest ih =>
    intro seen
    by_cases hc : c.1 ∈ seen
    · rw [dedupKeepFirst, if_pos hc]; exact ih seen
    · rw [dedupKeepFirst, if_neg hc]
      simp only [List.map_cons, List.nodup_cons]
      refine ⟨fun hmem => ?_, ih (c.1 :: seen)⟩
      exact dedupKeepFirst_not_seen rest (c.1 :: seen) c.1 hmem (List.mem_cons_self _ _)

theorem dedupKeepFirst_find : ∀ (l : List (String × String)) (seen : List String)
    (n : String), (dedupKeepFirst seen l).find? (fun p => p.1 == n) =
      if n ∈ seen then none else l.find? (fun p => p.1 == n) := by
  intro l
  induction l with
  | nil => intro seen n; simp [dedupKeepFirst]
  | cons c rest ih =>
    intro seen n
    by_cases hc : c.1 ∈ seen
    · rw [dedupKeepFirst, if_pos hc, ih]
      by_cases hn : n ∈ seen
      · simp [hn]
      · have hne : (c.1 == n) = false := by
          simp only [beq_eq_false_iff_ne, ne_eq]
          intro he; exact hn (he ▸ hc)
        simp [hn, List.find?, hne]
    · rw [dedupKeepFirst, if_neg hc]
      by_cases he : c.1 = n
      · have : n ∉ seen := fun hn => hc (he ▸ hn)
        simp [List.find?, he, this]
      · have hne : (c.1 == n) = false := by simp [he]
        simp only [List.find?, hne, ih]
        by_cases hn : n ∈ seen
        · simp [hn, List.mem_cons, he]
        · have hns : n ∉ c.1 :: seen := by
            simp only [List.mem_cons, not_or]
            exact ⟨fun h => he h.symm, hn⟩
          simp [hn, hns]

theorem find_eq_head_filter {α : Type} (q : α → Bool) :
    ∀ l : List α, l.find? q = (l.filter q).head? := by
  intro l
  induction l with
  | nil => rfl
  | cons a as ih =>
    by_cases h : q a
    · simp [List.find?, List.filter, h]
    · simp only [List.find?, List.filter, h]
      simp only [Bool.false_eq_true, if_false, ih]

/-- Claim C8 (confirmed): for every observed cookie sequence,
`clear_duplicate_cookies` leaves exactly one entry per name, each holding
the most recently observed value for that name. -/
theorem c8_dedup_most_recent_wins :
    ∀ cs : List (String × String),
      ((clear_duplicate_cookies cs).map Prod.fst).Nodup ∧
      ∀ n : String,
        ((clear_duplicate_cookies cs).find? (fun p => p.1 == n)).map Prod.snd =
          mostRecentValue cs n := by
  intro cs
  constructor
  · exact dedupKeepFirst_nodup cs.reverse []
  · intro n
    unfold clear_duplicate_cookies mostRecentValue
    rw [dedupKeepFirst_find cs.reverse [] n]
    simp only [List.not_mem_nil, if_false]
    rw [find_eq_head_filter, List.filter_reverse, List.head?_reverse]

theorem pySplitChar_ne_nil (sep : Char) (l : List Char) : pySplitChar sep l ≠ [] := by
  cases l with
  | nil => simp [pySplitChar]
  | cons c rest =>
    rw [pySplitChar]
    cases pySplitChar sep rest with
    | nil => simp
    | cons g gs =>
      by_cases h : c = sep <;> simp [h]

theorem pySplitChar_head (sep : Char) :
    ∀ l : List Char, (pySplitChar sep l).headD [] = l.takeWhile (fun c => !(c == sep)) := by
  intro l
  induction l with
  | nil => rfl
  | cons c rest ih =>
    rw [pySplitChar]
    rcases hr : pySplitChar sep rest with _ | ⟨g, gs⟩
    · exact absurd hr (pySplitChar_ne_nil sep rest)
    · by_cases h : c = sep
      · simp [h, List.takeWhile]
      · have hb : (c == sep) = false := by simp [h]
        simp only [if_neg h, List.headD_cons, List.takeWhile, hb, Bool.not_false]
        rw [hr] at ih
        simp only [List.headD_cons] at ih
        rw [ih]

/-- Claim C9 (confirmed): on every signed call the token passed to the
signing engine is recomputed from the current cookie set as the substring
of the `_m_h5_tk` cookie value up to its first underscore (empty when the
cookie is absent); with a pre-seeded `_m_h5_tk=ABCDEF_12345` the token is
`ABCDEF` and occurs in the sign input exactly once. -/
theorem c9_token_projection :
    (∀ cs : List (String × String),
      tokenOf cs =
        match cs.find? (fun p => p.1 == "_m_h5_tk") with
        | some p => ⟨p.2.data.takeWhile (fun c => !(c == '_'))⟩
        | none => "") ∧
    (∀ cs t d, getTokenSignInput cs t d = signMsg t (tokenOf cs) (getTokenDataVal d)) ∧
    (∀ cs t i, getItemInfoSignInput cs t i = signMsg t (tokenOf cs) (getItemInfoDataVal i)) ∧
    tokenOf [("_m_h5_tk", "ABCDEF_12345")] = "ABCDEF" ∧
    countOccurrences "ABCDEF".data
      (getTokenSignInput [("_m_h5_tk", "ABCDEF_12345")] "1700000000000" "dev-1").data = 1 := by
  refine ⟨?_, fun cs t d => rfl, fun cs t i => rfl, by decide, by decide⟩
  intro cs
  unfold tokenOf cookieGet
  cases h : cs.find? (fun p => p.1 == "_m_h5_tk") with
  | none => rfl
  | some p => rw [pySplitChar_head]

/-- Claim C3 (counterexample): the claim asserts that the signing-engine
appKey constant differs from the outer `appKey` query parameter; in the
source both are the literal `34839810`, so the claim is false. The
literal that differs is the `appKey` field inside the token-request JSON
payload. -/
theorem c3_counterexample :
    sign_app_key = "34839810" ∧
    (getTokenParams "1700000000000").find? (fun p => p.1 == "appKey") =
      some ("appKey", sign_app_key) ∧
    (getItemInfoParams "1700000000000").find? (fun p => p.1 == "appKey") =
      some ("appKey", sign_app_key) := by
  exact ⟨rfl, by decide, by decide⟩

/-- Claim C3 (amended): the fixed appKey constant concatenated into the
signature input is the same literal (`34839810`) as the `appKey` query
parameter of the outer signed requests built by `get_token` and
`get_item_info`; the different fixed literal
(`444e9908a51d1cb236a27862abc769c9`) is the `appKey` field inside the
JSON payload of the token request. -/
theorem c3_amended :
    ∀ t d : String,
      (getTokenParams t).find? (fun p => p.1 == "appKey") =
        some ("appKey", sign_app_key) ∧
      (getItemInfoParams t).find? (fun p => p.1 == "appKey") =
        some ("appKey", sign_app_key) ∧
      sign_app_key ≠ tokenPayloadAppKey ∧
      ∃ a b : String, getTokenDataVal d = a ++ tokenPayloadAppKey ++ b := by
  intro t d
  refine ⟨rfl, rfl, by decide, ?_⟩
  exact ⟨"\x7b\"appKey\":\"", "\",\"deviceId\":\"" ++ d ++ "\"\x7d", rfl⟩

theorem md5Digest_length (st : Nat × Nat × Nat × Nat) : (md5Digest st).length = 16 := by
  obtain ⟨a, b, c, d⟩ := st
  rfl

theorem md5_length (m : List Nat) : (md5 m).length = 16 := by
  unfold md5
  exact md5Digest_length _

theorem byteHex_length (b : Nat) : (byteHex b).length = 2 := rfl

theorem flatMap_byteHex_length : ∀ l : List Nat, (l.flatMap byteHex).length = 2 * l.length := by
  intro l
  induction l with
  | nil => rfl
  | cons b bs ih =>
    simp only [List.flatMap_cons, List.length_append, ih, byteHex_length, List.length_cons]
    omega

theorem hexChar_mem (n : Nat) (h : n < 16) : hexDigits.contains (hexChar n) = true := by
  interval_cases n <;> decide

theorem byteHex_all_hex (b : Nat) : (byteHex b).all (fun c => hexDigits.contains c) = true := by
  simp only [byteHex, List.all_cons, List.all_nil, Bool.and_true, Bool.and_eq_true]
  exact ⟨hexChar_mem _ (Nat.mod_lt _ (by omega)), hexChar_mem _ (Nat.mod_lt _ (by omega))⟩

theorem flatMap_byteHex_all_hex : ∀ l : List Nat,
    (l.flatMap byteHex).all (fun c => hexDigits.contains c) = true := by
  intro l
  induction l with
  | nil => rfl
  | cons b bs ih =>
    simp only [List.flatMap_cons, List.all_append, ih, byteHex_all_hex, Bool.and_self]

/-- Claim C4 (confirmed): `generate_sign` is the lowercase hexadecimal
rendering of the 128-bit MD5 digest of the UTF-8 bytes of
`token & t & appKey & payload` for the fixed appKey constant; it is a
pure total function (no error conditions) and deterministic. -/
theorem c4_generate_sign_formula :
    ∀ t token data : String,
      generate_sign t token data = signSpecFormula t token data ∧
      (generate_sign t token data).length = 32 ∧
      (generate_sign t token data).data.all (fun c => hexDigits.contains c) = true ∧
      (∀ t2 token2 data2 : String, t = t2 → token = token2 → data = data2 →
        generate_sign t token data = generate_sign t2 token2 data2) := by
  intro t token data
  refine ⟨rfl, ?_, ?_, ?_⟩
  · show (md5Hexdigest (utf8Encode (signMsg t token data))).length = 32
    unfold md5Hexdigest
    show (String.mk _).length = 32
    simp only [String.length]
    rw [flatMap_byteHex_length, md5_length]
  · exact flatMap_byteHex_all_hex _
  · intro t2 token2 data2 h1 h2 h3
    rw [h1, h2, h3]

/-- Witness for claim C4 at concrete inputs. -/
theorem c4_generate_sign_formula_witness :
    generate_sign "1700000000000" "ABCDEF" "x" =
      generate_sign "1700000000000" "ABCDEF" "x" ∧
    generate_sign "1700000000000" "ABCDEF" "x" = "51ebc798e6f0437cbbd45c703d6d9b19" := by
  constructor
  · exact (c4_generate_sign_formula "1700000000000" "ABCDEF" "x").2.2.2
      "1700000000000" "ABCDEF" "x" rfl rfl rfl
  · rfl

theorem get_item_info_step (resp : Nat → HttpResponse) (idx rc : Nat)
    (hrc : rc < 3) (hfail : respSuccess (resp idx) = false) :
    get_item_info resp idx rc = get_item_info resp (idx + 1) (rc + 1) := by
  rw [get_item_info]
  rw [if_neg (by omega)]
  cases h : resp idx with
  | dict ret =>
    rw [h] at hfail
    simp only [respSuccess] at hfail
    simp [hfail]
  | nonDict => rfl
  | exn => rfl

/-- Claim C5 (confirmed): when every response to `get_item_info` lacks
the success marker, the call makes exactly 3 attempts and returns the
non-fatal error dict to its caller (its embedding has no fatal or
reauthentication outcome at all: the only outcomes are a parsed response
or the error value). -/
theorem c5_item_info_retry_bound :
    ∀ resp : Nat → HttpResponse,
      (∀ n, respSuccess (resp n) = false) →
      get_item_info resp 0 0 = (.errorValue, 3) := by
  intro resp h
  rw [get_item_info_step resp 0 0 (by omega) (h 0),
      get_item_info_step resp 1 1 (by omega) (h 1),
      get_item_info_step resp 2 2 (by omega) (h 2),
      get_item_info, if_pos (by omega)]

/-- Witness for claim C5: a transport that always raises. -/
theorem c5_item_info_retry_bound_witness :
    (∀ n : Nat, respSuccess ((fun _ => HttpResponse.exn) n) = false) ∧
    get_item_info (fun _ => HttpResponse.exn) 0 0 = (.errorValue, 3) :=
  ⟨fun _ => rfl, c5_item_info_retry_bound (fun _ => HttpResponse.exn) (fun _ => rfl)⟩

/-- Claim C6 (confirmed): if the reauthentication handshake always
fails, `hasLogin` returns failure after exactly its 2 bounded attempts,
and a `get_token` call whose retry budget is exhausted then terminates
immediately in the fatal outcome (`sys.exit(1)`), with no further
recovery path in the embedding. -/
theorem c6_reauth_fatal :
    ∀ lO : Nat → Bool,
      (∀ n, lO n = false) →
      (∀ idx, hasLogin lO idx 0 = (false, idx + 2)) ∧
      (∀ (tO : Nat → Bool) (fuel tIdx lIdx : Nat),
        getToken tO lO (fuel + 1) tIdx lIdx 2 = some .fatal) := by
  intro lO h
  have hh : ∀ idx, hasLogin lO idx 0 = (false, idx + 2) := by
    intro idx
    rw [hasLogin, if_neg (by omega), h idx, if_neg (by simp),
        hasLogin, if_neg (by omega), h (idx + 1), if_neg (by simp),
        hasLogin, if_pos (by omega)]
  refine ⟨hh, fun tO fuel tIdx lIdx => ?_⟩
  rw [getToken, if_pos (by omega), hh lIdx]

/-- Witness for claim C6 at concrete oracles. -/
theorem c6_reauth_fatal_witness :
    (∀ n : Nat, (fun _ => false) n = false) ∧
    hasLogin (fun _ => false) 0 0 = (false, 2) ∧
    getToken (fun _ => false) (fun _ => false) 1 0 0 2 = some .fatal := by
  refine ⟨fun _ => rfl, ?_, ?_⟩
  · exact (c6_reauth_fatal (fun _ => false) (fun _ => rfl)).1 0
  · exact (c6_reauth_fatal (fun _ => false) (fun _ => rfl)).2 (fun _ => false) 0 0 0

theorem getToken_allFail_none :
    ∀ (fuel tIdx lIdx rc : Nat),
      getToken (fun _ => false) (fun _ => true) fuel tIdx lIdx rc = none := by
  intro fuel
  induction fuel with
  | zero => intro tIdx lIdx rc; rfl
  | succ fuel ih =>
    intro tIdx lIdx rc
    rw [getToken]
    by_cases hrc : 2 ≤ rc
    · rw [if_pos hrc]
      have hl : hasLogin (fun _ => true) lIdx 0 = (true, lIdx + 1) := by
        rw [hasLogin]
        simp
      rw [hl]
      exact ih tIdx (lIdx + 1) 0
    · rw [if_neg hrc]
      exact ih (tIdx + 1) lIdx (rc + 1)

/-- Claim C2 (counterexample): the claim asserts that a `get_token` call
terminates for every sequence of response outcomes. Under the outcome
sequence in which every token attempt fails and every reauthentication
attempt succeeds, the source recursion resets the retry counter forever:
no recursion depth reaches a terminal state. -/
theorem c2_counterexample :
    ¬ getTokenTerminates (fun _ => false) (fun _ => true) := by
  intro h
  obtain ⟨fuel, hs⟩ := h
  rw [getToken_allFail_none fuel 0 0 0] at hs
  exact Bool.false_ne_true hs

theorem hasLogin_true_cases (lO : Nat → Bool) (idx i : Nat)
    (h : hasLogin lO idx 0 = (true, i)) :
    (lO idx = true ∧ i = idx + 1) ∨
      (lO idx = false ∧ lO (idx + 1) = true ∧ i = idx + 2) := by
  rw [hasLogin, if_neg (by omega)] at h
  cases h0 : lO idx with
  | true =>
    rw [h0, if_pos rfl] at h
    exact Or.inl ⟨rfl, (Prod.mk.injEq _ _ _ _).mp h |>.2.symm⟩
  | false =>
    rw [h0] at h
    simp only [Bool.false_eq_true, if_false] at h
    rw [hasLogin, if_neg (by omega)] at h
    cases h1 : lO (idx + 1) with
    | true =>
      rw [h1, if_pos rfl] at h
      exact Or.inr ⟨rfl, rfl, (Prod.mk.injEq _ _ _ _).mp h |>.2.symm⟩
    | false =>
      rw [h1] at h
      simp only [Bool.false_eq_true, if_false] at h
      rw [hasLogin, if_pos (by omega)] at h
      exact absurd ((Prod.mk.injEq _ _ _ _).mp h).1 Bool.false_ne_true

theorem getToken_term_aux (N : Nat) (tO lO : Nat → Bool)
    (hN : ∀ n, N ≤ n → lO n = false) :
    ∀ (k tIdx lIdx : Nat), N ≤ lIdx + k →
      ∃ r, getToken tO lO (3 * k + 6) tIdx lIdx 0 = some r := by
  intro k
  induction k with
  | zero =>
    intro tIdx lIdx hk
    simp only [Nat.mul_zero, Nat.zero_add] at hk ⊢
    rw [show (6 : Nat) = 5 + 1 by rfl, getToken, if_neg (by omega)]
    cases ht0 : tO tIdx with
    | true => exact ⟨.success, by rw [if_pos rfl]⟩
    | false =>
      simp only [Bool.false_eq_true, if_false]
      rw [show (5 : Nat) = 4 + 1 by rfl, getToken, if_neg (by omega)]
      cases ht1 : tO (tIdx + 1) with
      | true => exact ⟨.success, by rw [if_pos rfl]⟩
      | false =>
        simp only [Bool.false_eq_true, if_false]
        rw [show (4 : Nat) = 3 + 1 by rfl, getToken, if_pos (by omega)]
        have hh : hasLogin lO lIdx 0 = (false, lIdx + 2) := by
          rw [hasLogin, if_neg (by omega), hN lIdx hk, if_neg (by simp),
              hasLogin, if_neg (by omega), hN (lIdx + 1) (by omega), if_neg (by simp),
              hasLogin, if_pos (by omega)]
        rw [hh]
        exact ⟨.fatal, rfl⟩
  | succ k ih =>
    intro tIdx lIdx hk
    rw [show 3 * (k + 1) + 6 = (3 * k + 8) + 1 by ring, getToken, if_neg (by omega)]
    cases ht0 : tO tIdx with
    | true => exact ⟨.success, by rw [if_pos rfl]⟩
    | false =>
      simp only [Bool.false_eq_true, if_false]
      rw [show 3 * k + 8 = (3 * k + 7) + 1 by ring, getToken, if_neg (by omega)]
      cases ht1 : tO (tIdx + 1) with
      | true => exact ⟨.success, by rw [if_pos rfl]⟩
      | false =>
        simp only [Bool.false_eq_true, if_false]
        rw [show 3 * k + 7 = (3 * k + 6) + 1 by ring, getToken, if_pos (by omega)]
        cases hh : hasLogin lO lIdx 0 with
        | mk b i =>
          cases b with
          | false => exact ⟨.fatal, rfl⟩
          | true =>
            have hrange := hasLogin_true_cases lO lIdx i hh
            have hiN : N ≤ i + k := by
              rcases hrange with ⟨hsucc, hi⟩ | ⟨_, hsucc, hi⟩
              · have : lIdx < N := by
                  by_contra hc
                  rw [hN lIdx (by omega)] at hsucc
                  exact Bool.false_ne_true hsucc
                omega
              · have : lIdx + 1 < N := by
                  by_contra hc
                  rw [hN (lIdx + 1) (by omega)] at hsucc
                  exact Bool.false_ne_true hsucc
                omega
            exact ih (tIdx + 2) i hiN

/-- Claim C2 (amended): when the token-fetch retry budget is exhausted
and reauthentication succeeds, the retry counter is reset and token
fetch is retried from attempt zero; the call reaches a terminal state
(SUCCESS or FATAL) for every outcome sequence in which reauthentication
stops succeeding from some point on — but not for every sequence: with
token fetch always failing and reauthentication always succeeding the
source recursion never terminates. -/
theorem c2_amended_token_fetch_termination :
    (∀ (tO lO : Nat → Bool) (fuel tIdx lIdx : Nat),
      (hasLogin lO lIdx 0).1 = true →
      getToken tO lO (fuel + 1) tIdx lIdx 2 =
        getToken tO lO fuel tIdx (hasLogin lO lIdx 0).2 0) ∧
    (∀ tO lO : Nat → Bool,
      (∃ N, ∀ n, N ≤ n → lO n = false) →
      ∃ r fuel, getToken tO lO fuel 0 0 0 = some r) := by
  constructor
  · intro tO lO fuel tIdx lIdx h
    rw [getToken, if_pos (by omega)]
    cases hh : hasLogin lO lIdx 0 with
    | mk b i =>
      rw [hh] at h
      cases b with
      | false => exact absurd h Bool.false_ne_true
      | true => rfl
  · intro tO lO ⟨N, hN⟩
    obtain ⟨r, hr⟩ := getToken_term_aux N tO lO hN N 0 0 (by omega)
    exact ⟨r, 3 * N + 6, hr⟩

/-- Witness for the amended claim C2: the reset equation at an oracle
whose first reauthentication attempt succeeds, and termination for a
transport that always fails (token and reauthentication alike). -/
theorem c2_amended_token_fetch_termination_witness :
    ((hasLogin (fun _ => true) 0 0).1 = true ∧
      getToken (fun _ => false) (fun _ => true) 1 0 0 2 =
        getToken (fun _ => false) (fun _ => true) 0 0
          (hasLogin (fun _ => true) 0 0).2 0) ∧
    ((∃ N : Nat, ∀ n : Nat, N ≤ n → (fun _ : Nat => false) n = false) ∧
      ∃ r fuel, getToken (fun _ => false) (fun _ => false) fuel 0 0 0 = some r) := by
  refine ⟨⟨?_, ?_⟩, ⟨0, fun n _ => rfl⟩, ?_⟩
  · rw [hasLogin]; simp
  · exact c2_amended_token_fetch_termination.1 (fun _ => false) (fun _ => true) 0 0 0
      (by rw [hasLogin]; simp)
  · exact c2_amended_token_fetch_termination.2 (fun _ => false) (fun _ => false)
      ⟨0, fun n hn => rfl⟩

theorem beqComm {α : Type} [BEq α] [LawfulBEq α] (x y : α) : (x == y) = (y == x) := by
  rw [Bool.eq_iff_iff]
  simp only [beq_iff_eq]
  exact eq_comm

theorem pow_shift_iff (m1 e1 m2 e2 : Int) (h : e1 ≤ e2) :
    (m1 = m2 * 2 ^ (e2 - e1).toNat) ↔ (m1 : ℚ) * 2 ^ e1 = (m2 : ℚ) * 2 ^ e2 := by
  have h2 : (2 : ℚ) ≠ 0 := by norm_num
  have hsplit : (2 : ℚ) ^ e2 = 2 ^ (((e2 - e1).toNat : Int)) * 2 ^ e1 := by
    rw [← zpow_add₀ h2]
    congr 1
    omega
  have hcast : ∀ x : Int, (m1 = x) ↔ ((m1 : ℚ) = (x : ℚ)) := by
    intro x
    exact Iff.symm Int.cast_inj
  constructor
  · intro hm
    have hq : (m1 : ℚ) = (m2 : ℚ) * 2 ^ (((e2 - e1).toNat : Int)) := by
      rw [(hcast _).mp hm]
      push_cast
      rw [zpow_natCast]
    rw [hq, hsplit]
    ring
  · intro hq
    have hc : (m1 : ℚ) = (m2 : ℚ) * 2 ^ (((e2 - e1).toNat : Int)) := by
      have hx : (m1 : ℚ) * 2 ^ e1 =
          ((m2 : ℚ) * 2 ^ (((e2 - e1).toNat : Int))) * 2 ^ e1 := by
        rw [mul_assoc, ← hsplit]
        exact hq
      exact mul_right_cancel₀ (zpow_ne_zero e1 h2) hx
    rw [hcast]
    push_cast
    rw [zpow_natCast] at hc
    exact hc

theorem numEq_finite_iff (m1 e1 m2 e2 : Int) :
    numEq (.finite m1 e1) (.finite m2 e2) = true ↔
      (m1 : ℚ) * 2 ^ e1 = (m2 : ℚ) * 2 ^ e2 := by
  by_cases h : e1 ≤ e2
  · rw [numEq, if_pos h, beq_iff_eq]
    exact pow_shift_iff m1 e1 m2 e2 h
  · rw [numEq, if_neg h, beq_iff_eq]
    rw [eq_comm, pow_shift_iff m2 e2 m1 e1 (by omega), eq_comm]

theorem numEq_symm (n1 n2 : PyNum) : numEq n1 n2 = numEq n2 n1 := by
  cases n1 <;> cases n2 <;> try rfl
  rw [Bool.eq_iff_iff, numEq_finite_iff, numEq_finite_iff]
  exact eq_comm

theorem numEq_trans {n1 n2 n3 : PyNum} (h1 : numEq n1 n2 = true)
    (h2 : numEq n2 n3 = true) : numEq n1 n3 = true := by
  cases n1 <;> cases n2 <;> cases n3 <;>
    first
      | (rw [numEq_finite_iff] at h1 h2 ⊢; exact h1.trans h2)
      | simp_all [numEq]

theorem keyEq_symm (a b : MsgValue) : keyEq a b = keyEq b a := by
  cases a <;> cases b <;> simp only [keyEq] <;>
    first
      | rfl
      | apply beqComm
      | apply numEq_symm

theorem keyEq_trans {a b c : MsgValue} (h1 : keyEq a b = true)
    (h2 : keyEq b c = true) : keyEq a c = true := by
  cases a <;> cases b <;> cases c <;>
    first
      | rfl
      | (simp only [keyEq] at h1 h2 ⊢
         exact numEq_trans h1 h2)
      | exact absurd h1 Bool.false_ne_true
      | exact absurd h2 Bool.false_ne_true
      | (simp only [keyEq, beq_iff_eq] at h1 h2 ⊢
         exact h1.trans h2)

theorem assocSet_keys_sub : ∀ (m : List (MsgValue × MsgValue)) (k v : MsgValue)
    (x : MsgValue × MsgValue), x ∈ assocSet m k v →
      x.1 = k ∨ x.1 ∈ m.map Prod.fst := by
  intro m k v
  induction m with
  | nil =>
    intro x hx
    simp only [assocSet, List.mem_singleton] at hx
    exact Or.inl (by rw [hx])
  | cons p rest ih =>
    intro x hx
    obtain ⟨k2, v2⟩ := p
    rw [assocSet] at hx
    by_cases hk : keyEq k2 k = true
    · rw [if_pos hk] at hx
      rcases List.mem_cons.mp hx with h | h
      · exact Or.inr (by rw [h]; simp)
      · exact Or.inr (by simp only [List.map_cons, List.mem_cons]; exact Or.inr (List.mem_map_of_mem _ h))
    · rw [if_neg hk] at hx
      rcases List.mem_cons.mp hx with h | h
      · exact Or.inr (by rw [h]; simp)
      · rcases ih x h with h2 | h2
        · exact Or.inl h2
        · exact Or.inr (by simp only [List.map_cons, List.mem_cons]; exact Or.inr h2)

theorem assocSet_pairwise : ∀ (m : List (MsgValue × MsgValue)) (k v : MsgValue),
    m.Pairwise (fun p q => keyEq p.1 q.1 = false) →
    (assocSet m k v).Pairwise (fun p q => keyEq p.1 q.1 = false) := by
  intro m k v
  induction m with
  | nil => intro _; simp [assocSet]
  | cons p rest ih =>
    intro hp
    obtain ⟨k2, v2⟩ := p
    rw [List.pairwise_cons] at hp
    rw [assocSet]
    by_cases hk : keyEq k2 k = true
    · rw [if_pos hk, List.pairwise_cons]
      exact ⟨fun q hq => hp.1 q hq, hp.2⟩
    · rw [if_neg hk, List.pairwise_cons]
      refine ⟨fun q hq => ?_, ih hp.2⟩
      rcases assocSet_keys_sub rest k v q hq with h | h
      · rw [h]; exact Bool.not_eq_true _ ▸ hk
      · obtain ⟨q2, hq2, he⟩ := List.mem_map.mp h
        have h3 := hp.1 q2 hq2
        rw [he] at h3
        exact h3

theorem find_assocSet_hit : ∀ (m : List (MsgValue × MsgValue)) (k v k0 : MsgValue),
    keyEq k k0 = true →
    ((assocSet m k v).find? (fun p => keyEq p.1 k0)).map Prod.snd = some v := by
  intro m k v k0 hk
  induction m with
  | nil => simp [assocSet, List.find?, hk]
  | cons p rest ih =>
    obtain ⟨k2, v2⟩ := p
    rw [assocSet]
    by_cases h2 : keyEq k2 k = true
    · rw [if_pos h2]
      have : keyEq k2 k0 = true := keyEq_trans h2 hk
      simp [List.find?, this]
    · rw [if_neg h2]
      have h20 : keyEq k2 k0 = false := by
        by_contra hc
        have hc2 : keyEq k2 k0 = true := by
          cases hcc : keyEq k2 k0 with
          | true => rfl
          | false => exact absurd hcc hc
        have : keyEq k2 k = true :=
          keyEq_trans hc2 (keyEq_symm k k0 ▸ hk)
        exact h2 this
      simp only [List.find?, h20, ih]

theorem find_assocSet_miss : ∀ (m : List (MsgValue × MsgValue)) (k v k0 : MsgValue),
    keyEq k k0 = false →
    (assocSet m k v).find? (fun p => keyEq p.1 k0) = m.find? (fun p => keyEq p.1 k0) := by
  intro m k v k0 hk
  induction m with
  | nil => simp [assocSet, List.find?, hk]
  | cons p rest ih =>
    obtain ⟨k2, v2⟩ := p
    rw [assocSet]
    by_cases h2 : keyEq k2 k = true
    · rw [if_pos h2]
      have h20 : keyEq k2 k0 = false := by
        by_contra hc
        have hc2 : keyEq k2 k0 = true := by
          cases hcc : keyEq k2 k0 with
          | true => rfl
          | false => exact absurd hcc hc
        have : keyEq k k0 = true := keyEq_trans (keyEq_symm k2 k ▸ h2) hc2
        rw [this] at hk
        exact absurd hk.symm Bool.false_ne_true
      simp [List.find?, h20]
    · rw [if_neg h2]
      by_cases h20 : keyEq k2 k0 = true
      · simp [List.find?, h20]
      · have h20f : keyEq k2 k0 = false := by
          cases hcc : keyEq k2 k0 with
          | true => exact absurd hcc h20
          | false => rfl
        simp only [List.find?, h20f, ih]

theorem dictFold_pairwise : ∀ (ps m : List (MsgValue × MsgValue)),
    m.Pairwise (fun p q => keyEq p.1 q.1 = false) →
    (ps.foldl (fun acc p => assocSet acc p.1 p.2) m).Pairwise
      (fun p q => keyEq p.1 q.1 = false) := by
  intro ps
  induction ps with
  | nil => intro m hm; exact hm
  | cons p rest ih =>
    intro m hm
    exact ih (assocSet m p.1 p.2) (assocSet_pairwise m p.1 p.2 hm)

theorem dictFold_find : ∀ (ps m : List (MsgValue × MsgValue)) (k0 : MsgValue),
    ((ps.foldl (fun acc p => assocSet acc p.1 p.2) m).find?
        (fun p => keyEq p.1 k0)).map Prod.snd =
      match (ps.filter (fun p => keyEq p.1 k0)).getLast? with
      | some q => some q.2
      | none => (m.find? (fun p => keyEq p.1 k0)).map Prod.snd := by
  intro ps
  induction ps with
  | nil => intro m k0; rfl
  | cons p rest ih =>
    intro m k0
    obtain ⟨k, v⟩ := p
    simp only [List.foldl_cons, List.filter_cons]
    by_cases hk : keyEq k k0 = true
    · simp only [hk, if_pos]
      rw [ih]
      rcases hLast : (rest.filter (fun p => keyEq p.1 k0)).getLast? with _ | q
      · rw [List.getLast?_eq_none_iff] at hLast
        rw [hLast]
        simp only [List.getLast?_singleton]
        exact find_assocSet_hit m k v k0 hk
      · have h5 : ((k, v) :: rest.filter (fun p => keyEq p.1 k0)).getLast? = some q := by
          rw [List.getLast?_cons, hLast]
          simp
        rw [hLast, h5]
    · have hkf : keyEq k k0 = false := by
        cases hcc : keyEq k k0 with
        | true => exact absurd hcc hk
        | false => rfl
      simp only [hkf, Bool.false_eq_true, if_false]
      rw [ih, find_assocSet_miss m k v k0 hkf]

theorem decode_map_eq_pairs (bs : List Nat) :
    ∀ (fuel size pos : Nat) (m : List (MsgValue × MsgValue)),
      decode_map bs fuel size pos m =
        (decodeMapPairs bs fuel size pos).map
          (fun r => (r.1.foldl (fun acc p => assocSet acc p.1 p.2) m, r.2)) := by
  intro fuel
  induction fuel with
  | zero => intro size pos m; rfl
  | succ fuel ih =>
    intro size pos m
    cases size with
    | zero => rfl
    | succ size =>
      rw [decode_map, decodeMapPairs]
      cases h1 : decode_value bs fuel pos with
      | error e => rfl
      | ok r1 =>
        obtain ⟨k, p1⟩ := r1
        cases h2 : decode_value bs fuel p1 with
        | error e => simp [h2, Except.map]
        | ok r2 =>
          obtain ⟨v, p2⟩ := r2
          simp only [h2, dictSet]
          by_cases hh : pyHashable k = true
          · simp only [if_pos hh, ih size p2 (assocSet m k v)]
            cases h3 : decodeMapPairs bs fuel size p2 with
            | error e => simp [h3, Except.map]
            | ok r3 =>
              obtain ⟨ps, p3⟩ := r3
              simp [h3, Except.map, List.foldl_cons]
          · simp only [Bool.not_eq_true] at hh
            simp [hh, Except.map]

/-- Claim C10 (confirmed): whenever `decode_map` succeeds, the decoded
mapping has at most one entry per key, and looking a key up yields the
value of the last pair with that key in the byte-stream order of the
map payload (later pairs overwrite earlier ones). -/
theorem c10_decode_map_last_wins :
    ∀ (bs : List Nat) (fuel size pos : Nat) (m : List (MsgValue × MsgValue)) (p2 : Nat),
      decode_map bs fuel size pos [] = .ok (m, p2) →
      ∃ pairs, decodeMapPairs bs fuel size pos = .ok (pairs, p2) ∧
        m.Pairwise (fun p q => keyEq p.1 q.1 = false) ∧
        ∀ k, (m.find? (fun p => keyEq p.1 k)).map Prod.snd =
          ((pairs.filter (fun p => keyEq p.1 k)).getLast?).map Prod.snd := by
  intro bs fuel size pos m p2 h
  rw [decode_map_eq_pairs] at h
  cases hp : decodeMapPairs bs fuel size pos with
  | error e => rw [hp] at h; exact absurd h (by simp [Except.map])
  | ok r =>
    obtain ⟨pairs, p3⟩ := r
    rw [hp] at h
    simp only [Except.map, Except.ok.injEq, Prod.mk.injEq] at h
    obtain ⟨hm, hp3⟩ := h
    refine ⟨pairs, by rw [← hp3], ?_, ?_⟩
    · rw [← hm]
      exact dictFold_pairwise pairs [] (by simp)
    · intro k
      rw [← hm, dictFold_find]
      cases hl : (pairs.filter (fun p => keyEq p.1 k)).getLast? with
      | none => simp [List.find?]
      | some q => simp

/-- Witness for claim C10: the two-pair map payload `{1: 2, 1: 3}`
(bytes `01 02 01 03` with count 2) decodes to a one-entry dict holding
the value of the second pair. -/
theorem c10_decode_map_last_wins_witness :
    decode_map [1, 2, 1, 3] 100 2 0 [] = .ok ([(.int 1, .int 3)], 4) ∧
    (∃ pairs, decodeMapPairs [1, 2, 1, 3] 100 2 0 = .ok (pairs, 4) ∧
      List.Pairwise (fun p q => keyEq p.1 q.1 = false) [((.int 1 : MsgValue), (.int 3 : MsgValue))] ∧
      ∀ k, (([((.int 1 : MsgValue), (.int 3 : MsgValue))]).find? (fun p => keyEq p.1 k)).map Prod.snd =
        ((pairs.filter (fun p => keyEq p.1 k)).getLast?).map Prod.snd) :=
  ⟨rfl, c10_decode_map_last_wins [1, 2, 1, 3] 100 2 0 _ 4 rfl⟩

/-- Claim C1 (counterexample): the claim describes three degradation
behaviors, and the source exhibits none of them, because
`MessagePackDecoder.decode` catches its own failure and returns the
base64 re-encoding of the bytes, which `decrypt` then serializes as a
plain JSON string. At the concrete inputs: `"!!!"` has no base64
characters yet produces the JSON string of the empty string rather than
a base64-tier error; `"x6k="` decodes to the bytes `c7 a9`, which fail
tagged-binary decoding and are valid UTF-8, yet the result is the JSON
string `"x6k="` rather than a text-kind result; `"wQ=="` decodes to the
byte `c1`, which fails tagged-binary decoding and is not valid UTF-8,
yet the result is the JSON string `"wQ=="` rather than a hex-kind
result. -/
theorem c1_counterexample :
    cleanB64 "!!!" = "" ∧
    decrypt "!!!" = "\"\"" ∧
    isErrorKind (decrypt "!!!") = false ∧
    b64decode (padB64 (cleanB64 "x6k=")) = .ok [0xc7, 0xa9] ∧
    decode_value [0xc7, 0xa9] msgpackFuel 0 = .error "Unknown format byte: 0xc7" ∧
    utf8Decode [0xc7, 0xa9] = some ['ǩ'] ∧
    decrypt "x6k=" = "\"x6k=\"" ∧
    isTextKind (decrypt "x6k=") = false ∧
    b64decode (padB64 (cleanB64 "wQ==")) = .ok [0xc1] ∧
    decode_value [0xc1] msgpackFuel 0 = .error "Unknown format byte: 0xc1" ∧
    utf8Decode [0xc1] = none ∧
    decrypt "wQ==" = "\"wQ==\"" ∧
    isHexKind (decrypt "wQ==") = false :=
  ⟨rfl, rfl, rfl, rfl, rfl, rfl, rfl, rfl, rfl, rfl, rfl, rfl, rfl⟩

theorem jsonEscapeChar_b64 : ∀ c ∈ b64Alphabet ++ ['='],
    ∀ ea : Bool, jsonEscapeChar ea c = [c] := by
  decide

theorem b64encodeChars_mem : ∀ (bs : List Nat) (c : Char),
    c ∈ b64encodeChars bs → c ∈ b64Alphabet ++ ['='] ∨ c = 'A' := by
  have hChar : ∀ n : Nat, b64Char n ∈ b64Alphabet ++ ['='] ∨ b64Char n = 'A' := by
    intro n
    by_cases h : n < b64Alphabet.length
    · left
      rw [List.mem_append]
      left
      rw [b64Char, List.getD_eq_getElem b64Alphabet 'A' h]
      exact b64Alphabet.getElem_mem h
    · right
      rw [b64Char, List.getD_eq_default]
      omega
  intro bs
  induction bs using b64encodeChars.induct with
  | case1 => intro c hc; simp [b64encodeChars] at hc
  | case2 b1 =>
    intro c hc
    simp only [b64encodeChars, List.mem_cons, List.not_mem_nil, or_false] at hc
    rcases hc with h | h | h | h
    all_goals first
      | exact h ▸ hChar _
      | (left; rw [h]; simp)
  | case3 b1 b2 =>
    intro c hc
    simp only [b64encodeChars, List.mem_cons, List.not_mem_nil, or_false] at hc
    rcases hc with h | h | h | h
    all_goals first
      | exact h ▸ hChar _
      | (left; rw [h]; simp)
  | case4 b1 b2 b3 rest ih =>
    intro c hc
    simp only [b64encodeChars, List.mem_cons] at hc
    rcases hc with h | h | h | h | h
    · exact h ▸ hChar _
    · exact h ▸ hChar _
    · exact h ▸ hChar _
    · exact h ▸ hChar _
    · exact ih c h

theorem flatMap_escape_id (ea : Bool) : ∀ l : List Char,
    (∀ c ∈ l, jsonEscapeChar ea c = [c]) → l.flatMap (jsonEscapeChar ea) = l := by
  intro l
  induction l with
  | nil => intro _; rfl
  | cons c rest ih =>
    intro h
    rw [List.flatMap_cons, h c (List.mem_cons_self _ _),
        ih (fun x hx => h x (List.mem_cons_of_mem _ hx))]
    rfl

theorem jsonQuote_b64 (ea : Bool) (bs : List Nat) :
    jsonQuote ea (b64encode bs) = "\"" ++ b64encode bs ++ "\"" := by
  have hesc : ∀ c ∈ (b64encode bs).data, jsonEscapeChar ea c = [c] := by
    intro c hc
    have : c ∈ b64Alphabet ++ ['='] ∨ c = 'A' := b64encodeChars_mem bs c hc
    rcases this with h | h
    · exact jsonEscapeChar_b64 c h ea
    · rw [h]; exact jsonEscapeChar_b64 'A' (by decide) ea
  show (⟨jsonQuoteChars ea (b64encode bs)⟩ : String) = _
  rw [jsonQuoteChars, flatMap_escape_id ea _ hesc]
  rfl

/-- Claim C1 (amended): when the tagged-binary tier fails on the decoded
bytes, the failure is caught inside `MessagePackDecoder.decode`, which
returns the base64 re-encoding of those bytes; `decrypt` then returns
that text as a plain JSON string — for UTF-8-valid and UTF-8-invalid
bytes alike, and likewise for an input with no base64 characters (which
decodes to the empty byte string). The text and hex tiers are not
reached on a tagged-binary failure; decrypt reaches them only when JSON
serialization of a successfully decoded value fails. -/
theorem c1_amended_msgpack_failure_fallback :
    ∀ (s : String) (bs : List Nat) (e : String),
      b64decode (padB64 (cleanB64 s)) = .ok bs →
      decode_value bs msgpackFuel 0 = .error e →
      decrypt s = "\"" ++ b64encode bs ++ "\"" := by
  intro s bs e h1 h2
  have hd : decoderDecode bs = .str (b64encode bs) := by
    simp only [decoderDecode, h2]
  have hj : jsonDumps false (MsgValue.str (b64encode bs)) =
      .ok (jsonQuote false (b64encode bs)) := rfl
  unfold decrypt decryptBody
  simp only [h1, hd, hj, jsonQuote_b64]

/-- Witness for the amended claim C1 at the input `"x6k="`. -/
theorem c1_amended_msgpack_failure_fallback_witness :
    b64decode (padB64 (cleanB64 "x6k=")) = .ok [0xc7, 0xa9] ∧
    decode_value [0xc7, 0xa9] msgpackFuel 0 = .error "Unknown format byte: 0xc7" ∧
    decrypt "x6k=" = "\"" ++ b64encode [0xc7, 0xa9] ++ "\"" :=
  ⟨rfl, rfl, c1_amended_msgpack_failure_fallback "x6k=" [0xc7, 0xa9]
    "Unknown format byte: 0xc7" rfl rfl⟩

/-- Claim C7 (confirmed): the decode pipeline is total. For every input
string the body of `decrypt` lands in a non-exceptional result (no
exception escapes to the outermost handler, which is therefore
unreachable), and the result is either the base64-tier error dict, the
JSON serialization of the decoded value (the tier that also swallows
tagged-binary failures into a base64 string), the text-tier dict, or the
hex-tier dict. -/
theorem c7_decrypt_total :
    ∀ s : String, ∃ out : String,
      decryptBody s = .ok out ∧ decrypt s = out ∧
      ((∃ e, out = b64FailJson e s) ∨
       (∃ bs j, b64decode (padB64 (cleanB64 s)) = .ok bs ∧
         jsonDumps false (decoderDecode bs) = .ok j ∧ out = j) ∨
       (∃ t, out = textJson t) ∨
       (∃ h e, out = hexJson h e)) := by
  intro s
  unfold decrypt decryptBody
  cases hb : b64decode (padB64 (cleanB64 s)) with
  | error e =>
    exact ⟨b64FailJson e s, by simp [hb], by simp [hb], Or.inl ⟨e, rfl⟩⟩
  | ok bs =>
    cases hj : jsonDumps false (decoderDecode bs) with
    | ok j =>
      exact ⟨j, by simp [hb, hj], by simp [hb, hj], Or.inr (Or.inl ⟨bs, j, rfl, hj, rfl⟩)⟩
    | error e =>
      cases hu : utf8Decode bs with
      | some cs =>
        exact ⟨textJson ⟨cs⟩, by simp [hb, hj, hu], by simp [hb, hj, hu],
          Or.inr (Or.inr (Or.inl ⟨⟨cs⟩, rfl⟩))⟩
      | none =>
        exact ⟨hexJson (bytesHex bs) e, by simp [hb, hj, hu], by simp [hb, hj, hu],
          Or.inr (Or.inr (Or.inr ⟨bytesHex bs, e, rfl⟩))⟩
